import Mathlib

/-!
Verification of the dandiset-metadata-assistant repository: a shallow
embedding of its JSON document model, schema validator, pending-change
(ChangeSet) engine, chat reducer, tool implementations and commit handler,
with theorems settling the specification claims.
-/

set_option maxRecDepth 4000

namespace DandisetAssistant

/-- JSON-like document values: the tagged union of objects (ordered
string-keyed field lists), arrays, strings, numbers, booleans and null,
mirroring the TypeScript runtime values the application manipulates.
Numbers are modelled as integers (no claim depends on non-integral
arithmetic). -/
inductive JsonValue where
  | null
  | bool (b : Bool)
  | num (n : Int)
  | str (s : String)
  | arr (items : List JsonValue)
  | obj (fields : List (String × JsonValue))
deriving Repr

/-- JavaScript property read `meta[field]`: `some` for a present object
field, `none` when the field is absent (`undefined`), including reads of
named fields on arrays and scalars. -/
def getField : JsonValue → String → Option JsonValue
  | .obj fields, k => fields.lookup k
  | _, _ => none

/-- JavaScript truthiness of a JSON value (`NaN` is not representable in
the model; objects and arrays are always truthy). -/
def jsTruthy : JsonValue → Bool
  | .null => false
  | .bool b => b
  | .num n => n != 0
  | .str s => s != ""
  | .arr _ => true
  | .obj _ => true

/-! ## SchemaValidator (`validateMetadata`, worker source quoted in README) -/

/-- One entry of `ValidationResult.errors` (`ValidationError` interface). -/
structure ValidationError where
  path : String
  message : String
  keyword : String
  params : List (String × String) := []
deriving DecidableEq, Repr

/-- `ValidationResult` interface of the schema validator. -/
structure ValidationResult where
  valid : Bool
  errors : List ValidationError
deriving DecidableEq, Repr

/-- The fixed list of required top-level fields checked by
`validateMetadata`, in source order. -/
def requiredFields : List String :=
  ["id", "name", "description", "contributor", "license", "schemaVersion",
   "identifier"]

/-- The error pushed by `validateMetadata` for a missing required field. -/
def requiredError (f : String) : ValidationError :=
  { path := "/" ++ f, message := "Missing required field: " ++ f,
    keyword := "required", params := [("missingProperty", f)] }

/-- The `minLength` error for an empty designated string field. -/
def minLengthError (f : String) : ValidationError :=
  { path := "/" ++ f, message := "Field \"" ++ f ++ "\" cannot be empty",
    keyword := "minLength" }

/-- The `type` error for a designated string field of the wrong type. -/
def stringTypeError (f : String) : ValidationError :=
  { path := "/" ++ f, message := "Field \"" ++ f ++ "\" must be a string",
    keyword := "type" }

/-- Drop leading whitespace characters. -/
def dropLeadingWs : List Char → List Char
  | [] => []
  | c :: rest => if c.isWhitespace then dropLeadingWs rest else c :: rest

/-- JavaScript `String.prototype.trim()`: strip leading and trailing
whitespace (written on the character list so that it reduces in the
kernel; JS trims the Unicode whitespace set, of which the ASCII subset is
what the metadata strings exercise). -/
def jsTrim (s : String) : String :=
  String.mk ((dropLeadingWs (dropLeadingWs s.data).reverse).reverse)

/-- The check of one required field: an error when the field is absent
(`undefined`) or `null` (`!(field in meta) || meta[field] === null ||
meta[field] === undefined`). -/
def requiredCheck (meta : JsonValue) (f : String) : List ValidationError :=
  match getField meta f with
  | none => [requiredError f]
  | some .null => [requiredError f]
  | some _ => []

/-- The `required`-keyword errors of `validateMetadata`: one error per field
of `requiredFields` that is absent (`undefined`) or `null`, in list order. -/
def requiredFieldErrors (meta : JsonValue) : List ValidationError :=
  (requiredFields.map (requiredCheck meta)).flatten

/-- The string-field check of `validateMetadata` for `name` and
`description`: a truthy non-string yields a `type` error, a truthy string
that trims to empty yields a `minLength` error; falsy values (including the
empty string) are skipped. -/
def stringFieldErrors (f : String) (v : Option JsonValue) : List ValidationError :=
  match v with
  | some val =>
    if jsTruthy val then
      match val with
      | .str s => if jsTrim s = "" then [minLengthError f] else []
      | _ => [stringTypeError f]
    else []
  | none => []

/-- The `minItems` error for an empty `contributor` array. -/
def contributorMinItemsError : ValidationError :=
  { path := "/contributor",
    message := "Field \"contributor\" must have at least one entry",
    keyword := "minItems" }

/-- The `type` error for a non-array `contributor`. -/
def contributorTypeError : ValidationError :=
  { path := "/contributor", message := "Field \"contributor\" must be an array",
    keyword := "type" }

/-- The `type` error for a non-array `license`. -/
def licenseTypeError : ValidationError :=
  { path := "/license", message := "Field \"license\" must be an array",
    keyword := "type" }

/-- The `contributor` check of `validateMetadata`: a truthy non-array
yields a `type` error, an empty array yields a `minItems` error. -/
def contributorErrors (v : Option JsonValue) : List ValidationError :=
  match v with
  | some val =>
    if jsTruthy val then
      match val with
      | .arr items =>
        if items.length = 0 then [contributorMinItemsError] else []
      | _ => [contributorTypeError]
    else []
  | none => []

/-- The `license` check of `validateMetadata`: a truthy non-array yields a
`type` error; there is no emptiness check. -/
def licenseErrors (v : Option JsonValue) : List ValidationError :=
  match v with
  | some val =>
    if jsTruthy val then
      match val with
      | .arr _ => []
      | _ => [licenseTypeError]
    else []
  | none => []

/-- `validateMetadata`: the basic structural validation of dandiset
metadata (required top-level fields, then the `name`, `description`,
`contributor` and `license` shape checks, in source order). A falsy or
non-object input is rejected outright (the guard
`!metadata || typeof metadata !== 'object'`: in JS only objects and arrays
are truthy values of type object). -/
def validateMetadata (metadata : JsonValue) : ValidationResult :=
  match metadata with
  | .arr _ | .obj _ =>
    let errors :=
      requiredFieldErrors metadata
      ++ stringFieldErrors "name" (getField metadata "name")
      ++ stringFieldErrors "description" (getField metadata "description")
      ++ contributorErrors (getField metadata "contributor")
      ++ licenseErrors (getField metadata "license")
    { valid := errors.length = 0, errors := errors }
  | _ =>
    { valid := false,
      errors := [{ path := "/", message := "Metadata must be an object",
                   keyword := "type" }] }

/-- `validateMetadata` sets `valid` to `true` exactly when it pushed no
error (shared helper for the claims about the validator). -/
theorem validateMetadata_valid_eq (m : JsonValue) :
    (validateMetadata m).valid = true ↔ (validateMetadata m).errors = [] := by
  cases m <;> simp [validateMetadata, List.length_eq_zero]

/-- **C2** — For every candidate metadata value, the `ValidationResult`
returned by `validateMetadata` has `valid = false` iff its error list is
non-empty; `valid = true` implies an empty error list, and `valid = false`
implies at least one error entry. -/
theorem validateMetadata_valid_iff_no_errors (m : JsonValue) :
    ((validateMetadata m).valid = false ↔ (validateMetadata m).errors ≠ []) ∧
    ((validateMetadata m).valid = true → (validateMetadata m).errors = []) ∧
    ((validateMetadata m).valid = false → 1 ≤ (validateMetadata m).errors.length) := by
  have h := validateMetadata_valid_eq m
  refine ⟨?_, fun hv => h.1 hv, ?_⟩
  · constructor
    · intro hv he
      have hv' := h.2 he
      rw [hv'] at hv
      simp at hv
    · intro hne
      cases hb : (validateMetadata m).valid with
      | false => rfl
      | true => exact absurd (h.1 hb) hne
  · intro hv
    have hne : (validateMetadata m).errors ≠ [] := by
      intro he
      have hv' := h.2 he
      rw [hv'] at hv
      simp at hv
    cases he : (validateMetadata m).errors with
    | nil => exact absurd he hne
    | cons a t => simp

/-- Witness for C2 at a concrete rejected input (`null` metadata): the
result is invalid, so its error list is non-empty with at least one
entry. -/
theorem validateMetadata_valid_iff_no_errors_witness :
    (validateMetadata JsonValue.null).errors ≠ [] ∧
    1 ≤ (validateMetadata JsonValue.null).errors.length := by
  have h := validateMetadata_valid_iff_no_errors JsonValue.null
  exact ⟨h.1.1 rfl, h.2.2 rfl⟩

/-! ## PathResolver and ChangeSet

The ChangeSet engine lives in `MetadataContext` (`addPendingChange`,
`removePendingChange`, `clearPendingChanges`, `getModifiedMetadata`), whose
source is not part of the provided files; only its type declarations
(`PendingChange` in the types file) and its callers are. Its operations are
therefore modelled from the spec (§4.1, §4.3). -/

/-- One segment of a path: an object field name or an array index
(spec §3: `a.b.3.c`, a bare integer segment is an array index). -/
inductive Seg where
  | field (name : String)
  | index (i : Nat)
deriving DecidableEq, Repr

/-- A path: the ordered sequence of segments; two paths are equal iff their
segment sequences are equal (spec §3). -/
abbrev Path := List Seg

/-- Modelled from the spec: `PathResolver.get` (§4.1) of the missing
MetadataContext/path module — descend segment by segment; indexing past
array bounds or into a non-container with remaining segments yields
`NotFound` (`none`), not an exception. -/
def getPath : JsonValue → Path → Option JsonValue
  | d, [] => some d
  | .obj fields, .field k :: rest =>
    match fields.lookup k with
    | some v => getPath v rest
    | none => none
  | .arr items, .index i :: rest =>
    match items[i]? with
    | some v => getPath v rest
    | none => none
  | _, _ => none

/-- The fresh container created for an absent intermediate field: an array
when the next segment is numeric, otherwise an object (spec §4.1). -/
def emptyContainerFor : Path → JsonValue
  | .index _ :: _ => .arr []
  | _ => .obj []

/-- Replace the value of key `k` in place (keeping its position), or append
a new binding — the JS object assignment on a (shallow-copied) object. -/
def insertField : List (String × JsonValue) → String → JsonValue → List (String × JsonValue)
  | [], k, v => [(k, v)]
  | (k', v') :: rest, k, v =>
    if k' = k then (k, v) :: rest else (k', v') :: insertField rest k v

/-- Delete the binding of key `k`, if present. -/
def eraseField : List (String × JsonValue) → String → List (String × JsonValue)
  | [], _ => []
  | (k', v') :: rest, k =>
    if k' = k then rest else (k', v') :: eraseField rest k

/-- Pad an array with `null` up to length `n` (spec §4.1: arrays are
resized, padded with `null`, if an index exceeds the current length). -/
def padWithNull (items : List JsonValue) (n : Nat) : List JsonValue :=
  items ++ List.replicate (n - items.length) JsonValue.null

/-- Modelled from the spec: `PathResolver.set` (§4.1) of the missing
MetadataContext/path module — return a new document with the value written
at the path; absent intermediate fields are created (object, or array when
the next segment is numeric), arrays are padded with `null`; an existing
intermediate of the wrong container kind fails with `PathTypeConflict`
(`none`), as does descending through a `null` array slot. -/
def setPath : JsonValue → Path → JsonValue → Option JsonValue
  | _, [], v => some v
  | .obj fields, .field k :: rest, v =>
    let child := (fields.lookup k).getD (emptyContainerFor rest)
    match setPath child rest v with
    | some c => some (.obj (insertField fields k c))
    | none => none
  | .arr items, .index i :: rest, v =>
    let padded := padWithNull items (i + 1)
    let child := padded[i]?.getD .null
    match setPath child rest v with
    | some c => some (.arr (padded.set i c))
    | none => none
  | _, _ :: _, _ => none

/-- Modelled from the spec: `PathResolver.remove` (§4.1) — as `set`, but
deletes the terminal object field, or sets the terminal array slot to
`null` without changing the length (array compaction is explicitly not
performed); removing at an absent path is a no-op. -/
def removePath : JsonValue → Path → Option JsonValue
  | _, [] => none
  | .obj fields, [.field k] => some (.obj (eraseField fields k))
  | .arr items, [.index i] => some (.arr (items.set i .null))
  | .obj fields, .field k :: rest =>
    match fields.lookup k with
    | some child =>
      match removePath child rest with
      | some c => some (.obj (insertField fields k c))
      | none => none
    | none => some (.obj fields)
  | .arr items, .index i :: rest =>
    match items[i]? with
    | some child =>
      match removePath child rest with
      | some c => some (.arr (items.set i c))
      | none => none
    | none => some (.arr items)
  | _, _ :: _ => none

/-- `PendingChange` (types file, src/unnamed/part_007): one staged edit.
`none` for `oldValue` means the field did not exist before (`undefined`);
`none` for `newValue` means deletion. The source keys entries by the
dot-notation string form of the path; the model uses the parsed segment
sequence (spec §3: paths are equal iff their segment sequences are). -/
structure PendingChange where
  path : Path
  oldValue : Option JsonValue
  newValue : Option JsonValue
deriving Repr

/-- `PendingChanges`: the ordered list of pending edits (insertion order =
display order). -/
abbrev ChangeSet := List PendingChange

/-- Apply one pending change to a document; a failing application
(`PathTypeConflict`) leaves the document unchanged — errors are surfaced to
the caller, never half-applied (spec §7). -/
def applyChange (d : JsonValue) (e : PendingChange) : JsonValue :=
  match e.newValue with
  | some v => (setPath d e.path v).getD d
  | none => (removePath d e.path).getD d

/-- Modelled from the spec: `effectiveDocument` (§4.3,
`getModifiedMetadata` of the missing MetadataContext) — fold all entries in
insertion order over the base document. -/
def effectiveDocument (base : JsonValue) (cs : ChangeSet) : JsonValue :=
  cs.foldl applyChange base

/-- Modelled from the spec: `propose` (§4.3, `addPendingChange` of the
missing MetadataContext) — compute `oldValue` from the current effective
document; if an entry for the path already exists update only its
`newValue` (the originally captured `oldValue` stays), else append. -/
def propose (base : JsonValue) (cs : ChangeSet) (p : Path) (v : JsonValue) :
    ChangeSet :=
  let old := getPath (effectiveDocument base cs) p
  if cs.any (fun e => decide (e.path = p)) then
    cs.map (fun e => if e.path = p then { e with newValue := some v } else e)
  else
    cs ++ [{ path := p, oldValue := old, newValue := some v }]

/-- Modelled from the spec: `revert` (§4.3, `removePendingChange` of the
missing MetadataContext) — drop the entry for the path, no-op if absent. -/
def revert (cs : ChangeSet) (p : Path) : ChangeSet :=
  cs.filter (fun e => decide (e.path ≠ p))

/-- ChangeSet states reachable from the empty set by the session's
operations (`propose` with any base, `revert`, `clear`). -/
inductive ReachableCS : ChangeSet → Prop where
  | empty : ReachableCS []
  | propose (b : JsonValue) (p : Path) (v : JsonValue) {cs : ChangeSet} :
      ReachableCS cs → ReachableCS (propose b cs p v)
  | revert (p : Path) {cs : ChangeSet} :
      ReachableCS cs → ReachableCS (revert cs p)
  | clear {cs : ChangeSet} : ReachableCS cs → ReachableCS []

/-- How many entries a ChangeSet holds for one path. -/
def entriesFor (cs : ChangeSet) (p : Path) : Nat :=
  cs.countP (fun e => decide (e.path = p))

/-- `propose` never changes which path an entry is for. -/
theorem entriesFor_propose (b : JsonValue) (cs : ChangeSet) (p : Path)
    (v : JsonValue) (q : Path) :
    entriesFor (propose b cs p v) q =
      if cs.any (fun e => decide (e.path = p)) then entriesFor cs q
      else entriesFor cs q + (if p = q then 1 else 0) := by
  unfold propose entriesFor
  by_cases h : cs.any (fun e => decide (e.path = p)) = true
  · simp only [h, if_true]
    rw [List.countP_map]
    apply List.countP_congr
    intro e _
    by_cases hp : e.path = p <;> simp [hp, Function.comp]
  · simp only [Bool.not_eq_true] at h
    simp only [h, Bool.false_eq_true, if_false, List.countP_append]
    by_cases hpq : p = q <;> simp [hpq, List.countP_cons]

/-- Invariant: every reachable ChangeSet holds at most one entry per path. -/
theorem reachable_at_most_one (cs : ChangeSet) (h : ReachableCS cs) :
    ∀ q : Path, entriesFor cs q ≤ 1 := by
  induction h with
  | empty => intro q; simp [entriesFor]
  | propose b p v hr ih =>
    intro q
    rw [entriesFor_propose]
    rename_i cs'
    by_cases hany : cs'.any (fun e => decide (e.path = p)) = true
    · simpa [hany] using ih q
    · simp only [Bool.not_eq_true] at hany
      simp only [hany, Bool.false_eq_true, if_false]
      by_cases hpq : p = q
      · subst hpq
        have hzero : entriesFor cs' p = 0 := by
          unfold entriesFor
          rw [List.countP_eq_zero]
          intro e he
          have := List.any_eq_false.mp hany e he
          simpa using this
        simp [hzero]
      · simpa [hpq] using ih q
  | revert p hr ih =>
    intro q
    rename_i cs'
    have hsub : (cs'.filter (fun e => decide (e.path ≠ p))).Sublist cs' :=
      List.filter_sublist cs'
    have hle := hsub.countP_le (fun e => decide (e.path = q))
    exact le_trans hle (ih q)
  | clear hr ih => intro q; simp [entriesFor]

/-- Re-proposing on a path whose entry is the only one in the ChangeSet
replaces just its `newValue`. -/
theorem propose_single (base : JsonValue) (p : Path) (o : Option JsonValue)
    (w v : JsonValue) :
    propose base [{ path := p, oldValue := o, newValue := some w }] p v =
      [{ path := p, oldValue := o, newValue := some v }] := by
  simp [propose]

/-- Folding further proposals over a singleton ChangeSet keeps the single
entry, its sticky `oldValue`, and ends at the last proposed value. -/
theorem foldl_propose_single (base : JsonValue) (p : Path)
    (o : Option JsonValue) :
    ∀ (vs : List JsonValue) (w : JsonValue),
      vs.foldl (fun c v => propose base c p v)
          [{ path := p, oldValue := o, newValue := some w }] =
        [{ path := p, oldValue := o, newValue := some (vs.getLastD w) }] := by
  intro vs
  induction vs with
  | nil => intro w; simp
  | cons v vs ih =>
    intro w
    rw [List.foldl_cons, propose_single, ih, List.getLastD_cons]

/-- **C1** — A ChangeSet holds at most one `PendingChange` per path
(invariant over all reachable states); after a sequence of proposals
`propose(p, v1), ..., propose(p, vn)` from an empty ChangeSet the single
entry for `p` has `newValue = vn` but `oldValue` captured at the first
proposal (the pre-session value of `p` in the base document), and a
subsequent `revert(p)` removes the entry so that the effective document is
deep-equal to the base document. -/
theorem changeSet_sticky_oldValue_and_revert (base : JsonValue) (p : Path)
    (v : JsonValue) (vs : List JsonValue) :
    ((v :: vs).foldl (fun c w => propose base c p w) ([] : ChangeSet) =
        [{ path := p, oldValue := getPath base p,
           newValue := some ((v :: vs).getLastD v) }]
      ∧ revert ((v :: vs).foldl (fun c w => propose base c p w) []) p = []
      ∧ effectiveDocument base
          (revert ((v :: vs).foldl (fun c w => propose base c p w) []) p) =
          base)
    ∧ ∀ cs : ChangeSet, ReachableCS cs → ∀ q : Path, entriesFor cs q ≤ 1 := by
  have hfirst : propose base ([] : ChangeSet) p v =
      [{ path := p, oldValue := getPath base p, newValue := some v }] := by
    simp [propose, effectiveDocument]
  have hfold : (v :: vs).foldl (fun c w => propose base c p w) ([] : ChangeSet) =
      [{ path := p, oldValue := getPath base p,
         newValue := some (vs.getLastD v) }] := by
    rw [List.foldl_cons, hfirst, foldl_propose_single]
  have hrev : revert ((v :: vs).foldl (fun c w => propose base c p w) []) p = [] := by
    rw [hfold]; simp [revert]
  refine ⟨⟨?_, hrev, ?_⟩, fun cs h q => reachable_at_most_one cs h q⟩
  · rw [hfold, List.getLastD_cons]
  · rw [hrev]; rfl

/-- Witness for C1 at the spec §8 scenario: base `{name:"A"}`, proposing
`"B"` then `"C"` at path `name` leaves one entry with the original old
value and the last new value; the empty ChangeSet trivially satisfies the
at-most-one invariant. -/
theorem changeSet_sticky_oldValue_and_revert_witness :
    ([JsonValue.str "B", JsonValue.str "C"].foldl
        (fun c w =>
          propose (JsonValue.obj [("name", JsonValue.str "A")]) c
            [Seg.field "name"] w) ([] : ChangeSet) =
      [{ path := [Seg.field "name"], oldValue := some (JsonValue.str "A"),
         newValue := some (JsonValue.str "C") }])
    ∧ entriesFor [] [Seg.field "name"] ≤ 1 := by
  have h := changeSet_sticky_oldValue_and_revert
    (JsonValue.obj [("name", JsonValue.str "A")]) [Seg.field "name"]
    (JsonValue.str "B") [JsonValue.str "C"]
  refine ⟨?_, h.2 [] ReachableCS.empty [Seg.field "name"]⟩
  have h1 := h.1.1
  rw [h1]; rfl

/-! ## ToolExecutor: the propose-change admission gate -/

/-- The structured result a tool execution returns to the orchestrator. -/
structure ToolOutcome where
  success : Bool
  errors : List ValidationError
deriving DecidableEq, Repr

/-- Modelled from the spec: the propose-change tool gate (§4.4; the
`proposeMetadataChange` tool source is not among the provided files) —
compute the candidate effective document with the new change provisionally
folded in, run `validateMetadata`, and only on success admit the change via
`propose`; on validation failure return a structured failure with the
errors and leave the ChangeSet untouched (a `PathTypeConflict` from
`setPath` is likewise a failure without mutation). -/
def executeProposeChange (base : JsonValue) (cs : ChangeSet) (p : Path)
    (v : JsonValue) : ToolOutcome × ChangeSet :=
  match setPath (effectiveDocument base cs) p v with
  | none => ({ success := false, errors := [] }, cs)
  | some candidate =>
    let r := validateMetadata candidate
    if r.valid then ({ success := true, errors := [] }, propose base cs p v)
    else ({ success := false, errors := r.errors }, cs)

/-! ## Claims C5 and C6: the validator's non-emptiness and required-field
behaviour -/

/-- A fully-populated metadata document except that `license` is the empty
array. -/
def docEmptyLicense : JsonValue :=
  .obj [("id", .str "DANDI:000001/draft"),
        ("name", .str "Neural data"),
        ("description", .str "Extracellular recordings."),
        ("contributor", .arr [.obj [("name", .str "Doe, Jane"),
                                    ("schemaKey", .str "Person")]]),
        ("license", .arr []),
        ("schemaVersion", .str "0.6.4"),
        ("identifier", .str "DANDI:000001")]

/-- **C5, counterexample** — `license` is present but an empty array, yet
`validateMetadata` returns `valid = true` with no error: the code only
type-checks `license` and performs no non-emptiness check on it. -/
theorem validator_nonemptiness_counterexample :
    getField docEmptyLicense "license" = some (.arr []) ∧
    (validateMetadata docEmptyLicense).valid = true ∧
    (validateMetadata docEmptyLicense).errors = [] :=
  ⟨rfl, rfl, rfl⟩

/-- **C5** (amended) — The validator's non-emptiness behaviour as coded:
a designated string field (`name`, `description`) present as a non-empty
string that trims to empty gets a `minLength` error; the empty string
itself is falsy in JS and is skipped entirely; a present-but-empty
`contributor` array gets a `minItems` error; an empty `license` array gets
no error at all (license is only type-checked); and a non-empty `name` or
`contributor` check makes the overall result invalid. -/
theorem validator_nonemptiness_amended :
    (∀ (f s : String), s ≠ "" → jsTrim s = "" →
        stringFieldErrors f (some (.str s)) = [minLengthError f]) ∧
    (∀ f : String, stringFieldErrors f (some (.str "")) = []) ∧
    contributorErrors (some (.arr [])) = [contributorMinItemsError] ∧
    licenseErrors (some (.arr [])) = [] ∧
    (∀ fields, stringFieldErrors "name" (getField (.obj fields) "name") ≠ [] →
        (validateMetadata (.obj fields)).valid = false) ∧
    (∀ fields, contributorErrors (getField (.obj fields) "contributor") ≠ [] →
        (validateMetadata (.obj fields)).valid = false) := by
  refine ⟨?_, ?_, rfl, rfl, ?_, ?_⟩
  · intro f s hne htrim
    simp [stringFieldErrors, jsTruthy, hne, htrim]
  · intro f
    simp [stringFieldErrors, jsTruthy]
  · intro fields hne
    cases hv : (validateMetadata (.obj fields)).valid with
    | false => rfl
    | true =>
      exfalso
      have he := (validateMetadata_valid_eq (.obj fields)).1 hv
      simp only [validateMetadata, List.append_eq_nil] at he
      exact hne he.1.1.1.2
  · intro fields hne
    cases hv : (validateMetadata (.obj fields)).valid with
    | false => rfl
    | true =>
      exfalso
      have he := (validateMetadata_valid_eq (.obj fields)).1 hv
      simp only [validateMetadata, List.append_eq_nil] at he
      exact hne he.1.2

/-- Witness for the amended C5 at concrete inputs: a whitespace-only `name`
gets the `minLength` error, and a document whose `name` is whitespace-only
is invalid. -/
theorem validator_nonemptiness_amended_witness :
    stringFieldErrors "name" (some (.str " ")) = [minLengthError "name"] ∧
    (validateMetadata (.obj [("name", .str " ")])).valid = false := by
  refine ⟨validator_nonemptiness_amended.1 "name" " " (by decide) (by decide),
    validator_nonemptiness_amended.2.2.2.2.1 [("name", .str " ")] ?_⟩
  decide

/-- If every required field other than `f` is present and non-null is not
needed here: a field known present and non-null contributes no
`required` error. -/
theorem requiredCheck_eq_nil {m : JsonValue} {f : String}
    (h : ∃ v, getField m f = some v ∧ v ≠ .null) :
    requiredCheck m f = [] := by
  obtain ⟨v, hv, hvn⟩ := h
  unfold requiredCheck
  rw [hv]
  cases v
  case null => exact absurd rfl hvn
  all_goals rfl

/-- A field read as `undefined` contributes exactly its `required` error. -/
theorem requiredCheck_eq_of_none {m : JsonValue} {f : String}
    (h : getField m f = none) :
    requiredCheck m f = [requiredError f] := by
  unfold requiredCheck
  rw [h]

/-- The fields of a document with every required field except
`description`, all other checks passing. -/
def docNoDescriptionFields : List (String × JsonValue) :=
  [("id", .str "DANDI:000002/draft"),
   ("name", .str "Neural data"),
   ("contributor", .arr [.obj [("name", .str "Doe, Jane")]]),
   ("license", .arr [.str "spdx:CC0-1.0"]),
   ("schemaVersion", .str "0.6.4"),
   ("identifier", .str "DANDI:000002")]

/-- As above, with a whitespace-only `name`: all required fields except
`description` are present, but validation produces a second error. -/
def docNoDescriptionBlankName : JsonValue :=
  .obj [("id", .str "DANDI:000002/draft"),
        ("name", .str " "),
        ("contributor", .arr [.obj [("name", .str "Doe, Jane")]]),
        ("license", .arr [.str "spdx:CC0-1.0"]),
        ("schemaVersion", .str "0.6.4"),
        ("identifier", .str "DANDI:000002")]

/-- **C6, counterexample** — a document containing all required top-level
fields except `description` for which validation yields two errors, not
exactly one: the `required` error for `description` plus the `minLength`
error for its whitespace-only `name`. -/
theorem missing_description_counterexample :
    getField docNoDescriptionBlankName "description" = none ∧
    (∀ f ∈ requiredFields, f ≠ "description" →
        (getField docNoDescriptionBlankName f).isSome = true) ∧
    (validateMetadata docNoDescriptionBlankName).errors =
      [requiredError "description", minLengthError "name"] := by
  refine ⟨rfl, by decide, rfl⟩

/-- **C6** (amended) — For every candidate document that contains all
required top-level fields except `description` (each present and non-null)
and that passes the remaining shape checks, validation fails with exactly
one error, the `required` error naming `description`; and the
propose-change tool returns a structured failure carrying that error and
leaves the ChangeSet unchanged whenever its candidate document is such a
document. -/
theorem missing_description_single_error
    (fields : List (String × JsonValue))
    (hdesc : getField (.obj fields) "description" = none)
    (hreq : ∀ f ∈ requiredFields, f ≠ "description" →
        ∃ v, getField (.obj fields) f = some v ∧ v ≠ .null)
    (hnm : stringFieldErrors "name" (getField (.obj fields) "name") = [])
    (hct : contributorErrors (getField (.obj fields) "contributor") = [])
    (hlc : licenseErrors (getField (.obj fields) "license") = []) :
    (validateMetadata (.obj fields)).valid = false ∧
    (validateMetadata (.obj fields)).errors = [requiredError "description"] ∧
    ∀ (base : JsonValue) (cs : ChangeSet) (p : Path) (v : JsonValue),
      setPath (effectiveDocument base cs) p v = some (.obj fields) →
      executeProposeChange base cs p v =
        ({ success := false, errors := [requiredError "description"] }, cs) := by
  have h_id := requiredCheck_eq_nil (hreq "id" (by decide) (by decide))
  have h_nm := requiredCheck_eq_nil (hreq "name" (by decide) (by decide))
  have h_ct := requiredCheck_eq_nil (hreq "contributor" (by decide) (by decide))
  have h_lc := requiredCheck_eq_nil (hreq "license" (by decide) (by decide))
  have h_sv := requiredCheck_eq_nil (hreq "schemaVersion" (by decide) (by decide))
  have h_idf := requiredCheck_eq_nil (hreq "identifier" (by decide) (by decide))
  have h_ds := requiredCheck_eq_of_none hdesc
  have hrf : requiredFieldErrors (.obj fields) = [requiredError "description"] := by
    simp [requiredFieldErrors, requiredFields, h_id, h_nm, h_ct, h_lc, h_sv,
      h_idf, h_ds]
  have hdse : stringFieldErrors "description" (getField (.obj fields) "description") = [] := by
    rw [hdesc]; rfl
  have herr : (validateMetadata (.obj fields)).errors = [requiredError "description"] := by
    simp [validateMetadata, hrf, hnm, hdse, hct, hlc]
  have hvalid : (validateMetadata (.obj fields)).valid = false := by
    cases hv : (validateMetadata (.obj fields)).valid with
    | false => rfl
    | true =>
      have he := (validateMetadata_valid_eq (.obj fields)).1 hv
      rw [herr] at he
      exact absurd he (by simp)
  refine ⟨hvalid, herr, ?_⟩
  intro base cs p v hset
  unfold executeProposeChange
  rw [hset]
  simp [hvalid, herr]

/-- Witness for the amended C6: the concrete document missing only
`description`, with the candidate reproduced by a no-op write of `name`
over the document itself. -/
theorem missing_description_single_error_witness :
    (validateMetadata (.obj docNoDescriptionFields)).valid = false ∧
    (validateMetadata (.obj docNoDescriptionFields)).errors =
      [requiredError "description"] ∧
    executeProposeChange (.obj docNoDescriptionFields) [] [Seg.field "name"]
        (.str "Neural data") =
      ({ success := false, errors := [requiredError "description"] }, []) := by
  have hreq : ∀ f ∈ requiredFields, f ≠ "description" →
      ∃ v, getField (.obj docNoDescriptionFields) f = some v ∧ v ≠ .null := by
    intro f hf hfd
    simp only [requiredFields, List.mem_cons, List.not_mem_nil, or_false] at hf
    rcases hf with rfl | rfl | rfl | rfl | rfl | rfl | rfl
    · exact ⟨_, rfl, nofun⟩
    · exact ⟨_, rfl, nofun⟩
    · exact absurd rfl hfd
    · exact ⟨_, rfl, nofun⟩
    · exact ⟨_, rfl, nofun⟩
    · exact ⟨_, rfl, nofun⟩
    · exact ⟨_, rfl, nofun⟩
  have h := missing_description_single_error docNoDescriptionFields rfl hreq rfl rfl rfl
  exact ⟨h.1, h.2.1,
    h.2.2 (.obj docNoDescriptionFields) [] [Seg.field "name"] (.str "Neural data") rfl⟩

/-! ## Commit (`CommitButton.handleCommit`) -/

/-- Outcome of one awaited external call: resolve or reject. -/
inductive ExtResult (α : Type) where
  | ok (value : α)
  | err (message : String)
deriving Repr

/-- `DandisetVersionInfo`: the base document wrapper fetched from the
archive API; only the metadata payload matters to the claims. -/
structure DandisetVersionInfo where
  metadata : JsonValue
deriving Repr

/-- The slice of context/component state that `handleCommit` reads and
writes. `dandisetId`/`version` are falsy as the empty string. -/
structure CommitState where
  pendingChanges : ChangeSet
  versionInfo : Option DandisetVersionInfo
  apiKey : Option String
  dandisetId : String
  version : String
  commitError : Option String
  commitSuccess : Bool
deriving Repr

/-- `handleCommit`, with the outcomes of the two awaited external calls
(`commitMetadataChanges` and the follow-up `fetchDandisetVersionInfo`)
supplied as parameters: guard on key/info/id/version, reset the error,
commit; on commit rejection only `commitError` is set; on success the
pending changes are cleared and `commitSuccess` raised, then the version
info is refreshed — a failing refresh is only logged, the old
`versionInfo` stays and no error is surfaced. -/
def handleCommit (commitResult : ExtResult Unit)
    (refreshResult : ExtResult DandisetVersionInfo) (s : CommitState) :
    CommitState :=
  if s.apiKey.isNone ∨ s.versionInfo.isNone ∨ s.dandisetId = "" ∨ s.version = "" then
    s
  else
    match s.versionInfo.map (fun vi => effectiveDocument vi.metadata s.pendingChanges) with
    | none => { s with commitError := some "Failed to generate modified metadata" }
    | some _ =>
      let s0 := { s with commitError := none }
      match commitResult with
      | .err m => { s0 with commitError := some m }
      | .ok _ =>
        let s1 := { s0 with pendingChanges := [], commitSuccess := true }
        match refreshResult with
        | .ok info => { s1 with versionInfo := some info }
        | .err _ => s1

/-- A loaded session with one staged change, ready to commit. -/
def commitStateBefore : CommitState :=
  { pendingChanges :=
      [{ path := [Seg.field "name"], oldValue := some (.str "A"),
         newValue := some (.str "B") }],
    versionInfo := some ⟨.obj [("name", .str "A")]⟩,
    apiKey := some "dandi-api-key", dandisetId := "000001", version := "draft",
    commitError := none, commitSuccess := false }

/-- **C3, counterexample** — the commit operation resolves successfully but
the follow-up fetch of the canonical copy rejects: the pending changes are
cleared, yet `versionInfo` is *not* replaced by a freshly fetched copy (it
stays the pre-commit value) and no error is surfaced, contradicting the
claim that a successful commit always replaces the base document with a
freshly fetched canonical copy. -/
theorem commit_refresh_failure_counterexample :
    (handleCommit (.ok ()) (.err "Failed to fetch dandiset info")
        commitStateBefore).pendingChanges = [] ∧
    (handleCommit (.ok ()) (.err "Failed to fetch dandiset info")
        commitStateBefore).versionInfo = commitStateBefore.versionInfo ∧
    (handleCommit (.ok ()) (.err "Failed to fetch dandiset info")
        commitStateBefore).commitError = none :=
  ⟨rfl, rfl, rfl⟩

/-- **C3** (amended) — When the commit call resolves and the refresh
succeeds, the pending list is cleared and `versionInfo` is replaced by the
freshly fetched copy; when the commit resolves but the refresh rejects,
the pending list is still cleared and `versionInfo` is left unchanged with
no error surfaced; when the commit call rejects, the pending list and
`versionInfo` are unchanged and only the error message is surfaced. -/
theorem handleCommit_success_and_failure (s : CommitState)
    (hguard : ¬(s.apiKey.isNone ∨ s.versionInfo.isNone ∨ s.dandisetId = "" ∨
      s.version = "")) :
    (∀ info, handleCommit (.ok ()) (.ok info) s =
      { s with
          pendingChanges := [],
          commitSuccess := true,
          commitError := none,
          versionInfo := some info }) ∧
    (∀ m, handleCommit (.ok ()) (.err m) s =
      { s with
          pendingChanges := [],
          commitSuccess := true,
          commitError := none }) ∧
    (∀ m r, handleCommit (.err m) r s = { s with commitError := some m }) := by
  have hvi : ∃ vi, s.versionInfo = some vi := by
    cases h : s.versionInfo with
    | none => exact absurd (Or.inr (Or.inl (by simp [h]))) hguard
    | some vi => exact ⟨vi, rfl⟩
  obtain ⟨vi, hvi⟩ := hvi
  refine ⟨fun info => ?_, fun m => ?_, fun m r => ?_⟩ <;>
  · unfold handleCommit
    rw [if_neg hguard, hvi]
    rfl

/-- Witness for the amended C3 at the concrete pre-commit state, for a
successful refresh and for a rejected commit. -/
theorem handleCommit_success_and_failure_witness :
    handleCommit (.ok ()) (.ok ⟨.obj [("name", .str "B")]⟩) commitStateBefore =
      { commitStateBefore with
          pendingChanges := [],
          commitSuccess := true,
          commitError := none,
          versionInfo := some ⟨.obj [("name", .str "B")]⟩ } ∧
    handleCommit (.err "Internal Server Error") (.ok ⟨.obj []⟩)
        commitStateBefore =
      { commitStateBefore with commitError := some "Internal Server Error" } := by
  have h := handleCommit_success_and_failure commitStateBefore (by decide)
  exact ⟨h.1 ⟨.obj [("name", .str "B")]⟩, h.2.2 "Internal Server Error" (.ok ⟨.obj []⟩)⟩

/-! ## Chat state (`chatReducer` of useChat) -/

/-- Token usage of one assistant response / the whole chat. The estimated
cost is a JS float in the source; it is modelled as an integer (no claim
depends on its arithmetic). -/
structure Usage where
  promptTokens : Nat
  completionTokens : Nat
  estimatedCost : Int
deriving DecidableEq, Repr

/-- One `ChatMessage` of the transcript (user text, assistant text with
optional usage, or tool result). -/
structure ChatMessage where
  role : String
  content : String
  usage : Option Usage := none
deriving DecidableEq, Repr

/-- `ChatAction` of the useChat reducer. -/
inductive ChatAction where
  | add_message (message : ChatMessage)
  | set_model (model : String)
  | increment_usage (usage : Usage)
  | clear
deriving DecidableEq, Repr

/-- `Chat`: the transcript plus accumulated usage and selected model. -/
structure Chat where
  messages : List ChatMessage
  totalUsage : Usage
  model : String
deriving DecidableEq, Repr

/-- `DEFAULT_MODEL` is imported from the availableModels module, which is
not among the provided files; no claim depends on its value. -/
def DEFAULT_MODEL : String := "default-model"

/-- `emptyChat`: fresh transcript, zero usage, default model. -/
def emptyChat : Chat :=
  { messages := [],
    totalUsage := { promptTokens := 0, completionTokens := 0, estimatedCost := 0 },
    model := DEFAULT_MODEL }

/-- `chatReducer`: append a message, switch model, accumulate usage, or
reset to the empty chat. -/
def chatReducer (state : Chat) (action : ChatAction) : Chat :=
  match action with
  | .add_message m => { state with messages := state.messages ++ [m] }
  | .set_model model => { state with model := model }
  | .increment_usage u =>
    { state with totalUsage :=
        { promptTokens := state.totalUsage.promptTokens + u.promptTokens,
          completionTokens := state.totalUsage.completionTokens + u.completionTokens,
          estimatedCost := state.totalUsage.estimatedCost + u.estimatedCost } }
  | .clear => emptyChat

/-- **C8** — `add_message` yields exactly the old transcript followed by
the new message, and every action other than `clear` leaves the existing
messages in place as a prefix, in order: the transcript is append-only. -/
theorem chatReducer_append_only (s : Chat) (m : ChatMessage) :
    (chatReducer s (.add_message m)).messages = s.messages ++ [m] ∧
    ∀ a : ChatAction, a ≠ .clear →
      ∃ t, (chatReducer s a).messages = s.messages ++ t := by
  refine ⟨rfl, ?_⟩
  intro a ha
  cases a with
  | add_message m' => exact ⟨[m'], rfl⟩
  | set_model mo => exact ⟨[], by simp [chatReducer]⟩
  | increment_usage u => exact ⟨[], by simp [chatReducer]⟩
  | clear => exact absurd rfl ha

/-- A one-message chat used by the C8 witness. -/
def chatBefore : Chat :=
  { messages := [{ role := "user", content := "hello" }],
    totalUsage := { promptTokens := 0, completionTokens := 0, estimatedCost := 0 },
    model := "m" }

/-- Witness for C8 at a concrete chat, message and non-clear action. -/
theorem chatReducer_append_only_witness :
    (chatReducer chatBefore
        (.add_message { role := "assistant", content := "hi" })).messages =
      chatBefore.messages ++ [{ role := "assistant", content := "hi" }] ∧
    ∃ t, (chatReducer chatBefore (.set_model "other")).messages =
      chatBefore.messages ++ t := by
  have h := chatReducer_append_only chatBefore
    { role := "assistant", content := "hi" }
  exact ⟨h.1, h.2 (.set_model "other") (by decide)⟩

/-! ## ChatOrchestrator: the completion loop and its round-trip bound

`generateResponse` (useChat) delegates the loop to `processCompletion`,
whose module is not among the provided files; the loop and its bound are
modelled from the spec (§4.5). -/

/-- A tool call emitted by the provider (`ORToolCall`). -/
structure ToolCall where
  id : String
  functionName : String
  argumentsJSON : String
deriving DecidableEq, Repr

/-- One provider completion: a final assistant text, or a request to run
tool calls. -/
inductive ProviderReply where
  | text (content : String)
  | toolCalls (calls : List ToolCall)
deriving Repr

/-- Transcript entries the completion loop appends. -/
inductive LoopMessage where
  | assistantText (content : String)
  | assistantToolCalls (calls : List ToolCall)
  | toolResult (callId : String) (result : String)
  | stopNotice
deriving DecidableEq, Repr

/-- The cap on consecutive tool-call round-trips within one turn
(spec §4.5: a small fixed bound, on the order of 5). -/
def MAX_TOOL_ROUNDTRIPS : Nat := 5

/-- Modelled from the spec: the completion loop of the missing
`processCompletion` module (§4.5) — issue a completion request; a final
text reply ends the turn; a tool-call reply executes every call
sequentially, appends the results, and loops; once the round-trip budget is
exhausted the turn ends with a stop notice instead of a further completion
request. Returns the transcript, the number of completion requests issued,
and whether the bound fired. -/
def completionLoop (provider : List LoopMessage → ProviderReply)
    (execTool : ToolCall → String) :
    Nat → List LoopMessage → List LoopMessage × Nat × Bool
  | 0, msgs => (msgs ++ [.stopNotice], 0, true)
  | fuel + 1, msgs =>
    match provider msgs with
    | .text c => (msgs ++ [.assistantText c], 1, false)
    | .toolCalls calls =>
      let r := completionLoop provider execTool fuel
        (msgs ++ [.assistantToolCalls calls] ++
          calls.map (fun tc => .toolResult tc.id (execTool tc)))
      (r.1, r.2.1 + 1, r.2.2)

/-- The whole turn: the loop run with the round-trip budget. -/
def processCompletion (provider : List LoopMessage → ProviderReply)
    (execTool : ToolCall → String) (msgs : List LoopMessage) :
    List LoopMessage × Nat × Bool :=
  completionLoop provider execTool MAX_TOOL_ROUNDTRIPS msgs

/-- Appending one element determines the last element of a list. -/
theorem getLast?_append_singleton {α : Type} (l : List α) (a : α) :
    (l ++ [a]).getLast? = some a := by
  exact List.getLast?_concat l

/-- The completion loop issues at most `fuel` completion requests, and a
provider that keeps emitting tool calls makes the bound fire with a stop
notice as the final transcript entry. -/
theorem completionLoop_spec (provider : List LoopMessage → ProviderReply)
    (execTool : ToolCall → String) :
    ∀ (fuel : Nat) (msgs : List LoopMessage),
      (completionLoop provider execTool fuel msgs).2.1 ≤ fuel ∧
      ((∀ ms, ∃ calls, provider ms = .toolCalls calls) →
        (completionLoop provider execTool fuel msgs).2.2 = true ∧
        (completionLoop provider execTool fuel msgs).1.getLast? =
          some .stopNotice) := by
  intro fuel
  induction fuel with
  | zero =>
    intro msgs
    exact ⟨Nat.le_refl 0, fun _ => ⟨rfl, getLast?_append_singleton msgs .stopNotice⟩⟩
  | succ fuel ih =>
    intro msgs
    constructor
    · cases hp : provider msgs with
      | text c => simp [completionLoop, hp]
      | toolCalls calls =>
        have hle := (ih (msgs ++ [.assistantToolCalls calls] ++
          calls.map (fun tc => .toolResult tc.id (execTool tc)))).1
        simp only [completionLoop, hp]
        omega
    · intro hall
      obtain ⟨calls, hp⟩ := hall msgs
      have hrec := (ih (msgs ++ [.assistantToolCalls calls] ++
        calls.map (fun tc => .toolResult tc.id (execTool tc)))).2 hall
      simp only [completionLoop, hp]
      exact hrec

/-- **C4** — Within one orchestrator turn, the number of completion
round-trips is bounded by the fixed constant `MAX_TOOL_ROUNDTRIPS` (= 5);
a provider that keeps emitting tool calls makes the turn terminate with
the bound fired and a stop notice surfaced as the final transcript entry
instead of a further completion request. -/
theorem toolcall_roundtrips_bounded (provider : List LoopMessage → ProviderReply)
    (execTool : ToolCall → String) (msgs : List LoopMessage) :
    (processCompletion provider execTool msgs).2.1 ≤ MAX_TOOL_ROUNDTRIPS ∧
    ((∀ ms, ∃ calls, provider ms = .toolCalls calls) →
      (processCompletion provider execTool msgs).2.2 = true ∧
      (processCompletion provider execTool msgs).1.getLast? =
        some .stopNotice) :=
  completionLoop_spec provider execTool MAX_TOOL_ROUNDTRIPS msgs

/-- Witness for C4: a provider that always answers with the same tool call
exhausts the budget and the turn ends in a stop notice. -/
theorem toolcall_roundtrips_bounded_witness :
    (processCompletion
        (fun _ => .toolCalls [⟨"call_1", "propose_metadata_change", "null"⟩])
        (fun _ => "ok") []).2.1 ≤ MAX_TOOL_ROUNDTRIPS ∧
    (processCompletion
        (fun _ => .toolCalls [⟨"call_1", "propose_metadata_change", "null"⟩])
        (fun _ => "ok") []).2.2 = true ∧
    (processCompletion
        (fun _ => .toolCalls [⟨"call_1", "propose_metadata_change", "null"⟩])
        (fun _ => "ok") []).1.getLast? = some .stopNotice := by
  have h := toolcall_roundtrips_bounded
    (fun _ => .toolCalls [⟨"call_1", "propose_metadata_change", "null"⟩])
    (fun _ => "ok") []
  have h2 := h.2 (fun ms => ⟨[⟨"call_1", "propose_metadata_change", "null"⟩], rfl⟩)
  exact ⟨h.1, h2.1, h2.2⟩

/-! ## URL validation utilities (`validateOrcid`, `validateRorId`,
`validateUrl`) -/

/-- `ValidationResult` of the URL-validation module (distinct from the
schema validator's result type): `isValid` plus an optional error. -/
structure UrlValidationResult where
  isValid : Bool
  error : Option String := none
deriving DecidableEq, Repr

/-- The outcome of one awaited `fetch`: an HTTP status code, or a thrown
network error. -/
inductive FetchOutcome where
  | status (code : Nat)
  | networkError
deriving DecidableEq, Repr

/-- `Response.ok`: the status is in the range 200–299. -/
def respOk (code : Nat) : Bool :=
  decide (200 ≤ code) && decide (code ≤ 299)

/-- `\d` over ASCII. -/
def isAsciiDigit (c : Char) : Bool := decide ('0' ≤ c) && decide (c ≤ '9')

/-- `ORCID_PATTERN` — `^\d{4}-\d{4}-\d{4}-(\d{3}X|\d{4})$`. -/
def orcidFormatOk (s : String) : Bool :=
  match s.data with
  | [a, b, c, d, '-', e, f, g, h, '-', i, j, k, l, '-', m, n, o, p] =>
    [a, b, c, d, e, f, g, h, i, j, k, l, m, n, o].all isAsciiDigit &&
      (isAsciiDigit p || p == 'X')
  | _ => false

/-- Does the second list start with the first one? -/
def leadsWith : List Char → List Char → Bool
  | [], _ => true
  | _ :: _, [] => false
  | c :: cs, d :: ds => c == d && leadsWith cs ds

/-- `[a-z0-9]`. -/
def isLowerAlnum (c : Char) : Bool :=
  isAsciiDigit c || (decide ('a' ≤ c) && decide (c ≤ 'z'))

/-- `ROR_URL_PATTERN` — `^https:\/\/ror\.org\/[a-z0-9]+$` (16 is the
length of the literal leader `https://ror.org/`). -/
def rorFormatOk (s : String) : Bool :=
  leadsWith "https://ror.org/".data s.data &&
    (let rest := s.data.drop 16
     !rest.isEmpty && rest.all isLowerAlnum)

/-- `validateOrcid`, with the outcome of the awaited ORCID-API `fetch`
supplied as a parameter: bad format fails immediately; a 2xx resolves
valid; 404 fails with a message; any other status or a thrown network
error is treated leniently as valid. -/
def validateOrcid (orcid : String) (fetchResult : FetchOutcome) :
    UrlValidationResult :=
  if !orcidFormatOk orcid then
    { isValid := false,
      error := some ("Invalid ORCID format: \"" ++ orcid ++
        "\". Expected format: 0000-0000-0000-0000 or 0000-0000-0000-000X") }
  else
    match fetchResult with
    | .status code =>
      if respOk code then { isValid := true }
      else if code = 404 then
        { isValid := false,
          error := some ("ORCID \"" ++ orcid ++
            "\" does not exist. Please verify the ORCID is correct.") }
      else { isValid := true }
    | .networkError => { isValid := true }

/-- `validateRorId`, with the outcome of the awaited ROR-API `fetch`
supplied as a parameter; same lenient shape as `validateOrcid`. -/
def validateRorId (rorUrl : String) (fetchResult : FetchOutcome) :
    UrlValidationResult :=
  if !rorFormatOk rorUrl then
    { isValid := false,
      error := some ("Invalid ROR ID format: \"" ++ rorUrl ++
        "\". Expected format: https://ror.org/[alphanumeric]") }
  else
    match fetchResult with
    | .status code =>
      if respOk code then { isValid := true }
      else if code = 404 then
        { isValid := false,
          error := some ("ROR ID \"" ++ rorUrl ++
            "\" does not exist. Please verify the ROR ID is correct.") }
      else { isValid := true }
    | .networkError => { isValid := true }

/-- **C7** — For an identifier that passes the ORCID (resp. ROR) format
check, the verification result is invalid exactly when the lookup returned
404 (and then it carries an error message); every other non-OK status and
every thrown network error is leniently treated as valid. -/
theorem lenient_external_verification (orcid ror : String)
    (f g : FetchOutcome)
    (ho : orcidFormatOk orcid = true) (hr : rorFormatOk ror = true) :
    ((validateOrcid orcid f).isValid = false ↔ f = .status 404) ∧
    (f = .status 404 → (validateOrcid orcid f).error ≠ none) ∧
    ((validateRorId ror g).isValid = false ↔ g = .status 404) ∧
    (g = .status 404 → (validateRorId ror g).error ≠ none) := by
  have h404 : respOk 404 = false := by decide
  refine ⟨?_, ?_, ?_, ?_⟩
  · cases f with
    | networkError => simp [validateOrcid, ho]
    | status code =>
      by_cases hok : respOk code = true
      · have hne : code ≠ 404 := by
          intro h; rw [h] at hok; rw [h404] at hok; exact Bool.noConfusion hok
        simp [validateOrcid, ho, hok, hne]
      · by_cases hc : code = 404
        · subst hc; simp [validateOrcid, ho, h404]
        · simp [validateOrcid, ho, hok, hc]
  · intro hf; subst hf; simp [validateOrcid, ho, h404]
  · cases g with
    | networkError => simp [validateRorId, hr]
    | status code =>
      by_cases hok : respOk code = true
      · have hne : code ≠ 404 := by
          intro h; rw [h] at hok; rw [h404] at hok; exact Bool.noConfusion hok
        simp [validateRorId, hr, hok, hne]
      · by_cases hc : code = 404
        · subst hc; simp [validateRorId, hr, h404]
        · simp [validateRorId, hr, hok, hc]
  · intro hg; subst hg; simp [validateRorId, hr, h404]

/-- Witness for C7 at a well-formed ORCID with a 503 response and a
well-formed ROR URL with a thrown network error. -/
theorem lenient_external_verification_witness :
    ((validateOrcid "0000-0002-1825-0097" (.status 503)).isValid = false ↔
      FetchOutcome.status 503 = .status 404) ∧
    ((validateRorId "https://ror.org/05gq02987" .networkError).isValid = false ↔
      FetchOutcome.networkError = .status 404) := by
  have h := lenient_external_verification "0000-0002-1825-0097"
    "https://ror.org/05gq02987" (.status 503) .networkError
    (by decide) (by decide)
  exact ⟨h.1, h.2.2.1⟩

/-- Substring containment (`String.prototype.includes`). -/
def containsSeg : List Char → List Char → Bool
  | needle, [] => needle.isEmpty
  | needle, c :: rest => leadsWith needle (c :: rest) || containsSeg needle rest

/-- `URL_PATTERN` — `^https?:\/\/.+` (7 and 8 are the lengths of the two
scheme leaders; `.+` demands at least one further character). -/
def urlFormatOk (s : String) : Bool :=
  (leadsWith "http://".data s.data && decide (7 < s.data.length)) ||
  (leadsWith "https://".data s.data && decide (8 < s.data.length))

/-- The characters after the scheme leader, for the http/https URLs the
format check admits. -/
def schemeRest (s : String) : Option (List Char) :=
  if leadsWith "https://".data s.data then some (s.data.drop 8)
  else if leadsWith "http://".data s.data then some (s.data.drop 7)
  else none

/-- Strip the userinfo: keep what follows the last `@`. -/
def afterLastAt (l : List Char) : List Char :=
  (l.reverse.takeWhile (fun c => c != '@')).reverse

/-- Strip a trailing `:port` (an IPv6 bracket literal keeps its brackets). -/
def stripPort (l : List Char) : List Char :=
  match l with
  | '[' :: _ =>
    l.takeWhile (fun c => c != ']') ++
      (if l.any (fun c => c == ']') then [']'] else [])
  | _ => l.takeWhile (fun c => c != ':')

/-- ASCII lowercase of one character. -/
def asciiLower (c : Char) : Char :=
  if decide ('A' ≤ c) && decide (c ≤ 'Z') then Char.ofNat (c.toNat + 32) else c

/-- `new URL(url).hostname` for the http/https URLs the format check
admits: the authority between `//` and the first `/`, `?` or `#`, with
userinfo and port stripped and ASCII letters lowercased; `none` models the
constructor throwing (no scheme leader or empty host). -/
def urlHostname (s : String) : Option String :=
  match schemeRest s with
  | none => none
  | some rest =>
    let authority := rest.takeWhile (fun c => c != '/' && c != '?' && c != '#')
    if authority.isEmpty then none
    else some (String.mk ((stripPort (afterLastAt authority)).map asciiLower))

/-- The domains `validateUrl` never probes over the network. -/
def skipValidationDomains : List String :=
  ["doi.org", "dx.doi.org", "dandiarchive.org"]

/-- `validateUrl`, with the outcomes of the (up to two) proxied fetches
supplied as parameters; the second component counts the network requests
performed. Bad format or an unparseable URL fails without network; a
hostname containing a skip domain is valid without network; otherwise a
HEAD request decides — 2xx/301/302/307/308 valid, 404 invalid, 405 retried
with GET (lenient on everything), anything else lenient. -/
def validateUrl (url : String) (headResult getResult : FetchOutcome) :
    UrlValidationResult × Nat :=
  if !urlFormatOk url then
    ({ isValid := false,
       error := some ("Invalid URL format: \"" ++ url ++
         "\". URLs must start with http:// or https://") }, 0)
  else
    match urlHostname url with
    | none =>
      ({ isValid := false, error := some ("Invalid URL: \"" ++ url ++ "\"") }, 0)
    | some host =>
      if skipValidationDomains.any (fun d => containsSeg d.data host.data) then
        ({ isValid := true }, 0)
      else
        match headResult with
        | .status code =>
          if respOk code || code == 301 || code == 302 || code == 307 ||
              code == 308 then
            ({ isValid := true }, 1)
          else if code == 404 then
            ({ isValid := false,
               error := some ("URL \"" ++ url ++
                 "\" does not exist (404 Not Found).") }, 1)
          else if code == 405 then
            match getResult with
            | .status gcode =>
              if respOk gcode then ({ isValid := true }, 2)
              else ({ isValid := true }, 2)
            | .networkError => ({ isValid := true }, 2)
          else ({ isValid := true }, 1)
        | .networkError => ({ isValid := true }, 1)

/-- **C10** — Every `http(s)` URL whose parsed hostname contains one of
the exempt domains (`doi.org`, `dx.doi.org`, `dandiarchive.org`) is
declared valid without any network request, whatever the network would
have answered. -/
theorem skip_domain_urls_no_network (url host : String)
    (hfmt : urlFormatOk url = true)
    (hhost : urlHostname url = some host)
    (hdom : skipValidationDomains.any
      (fun d => containsSeg d.data host.data) = true) :
    ∀ headResult getResult : FetchOutcome,
      validateUrl url headResult getResult =
        ({ isValid := true, error := none }, 0) := by
  intro hr gr
  simp [validateUrl, hfmt, hhost, hdom]

/-- Witness for C10 at a DOI URL: valid, zero fetches, for an oracle that
would have failed. -/
theorem skip_domain_urls_no_network_witness :
    validateUrl "https://doi.org/10.48324/dandi.000001" .networkError
        .networkError = ({ isValid := true, error := none }, 0) :=
  skip_domain_urls_no_network "https://doi.org/10.48324/dandi.000001"
    "doi.org" rfl rfl rfl .networkError .networkError

/-! ## The `lookup_ontology_term` tool (`lookupOntologyTermTool.execute`) -/

/-- One OLS search hit (`OLSSearchResult`). -/
structure OLSSearchResult where
  iri : String
  label : String
  descriptions : List String := []
  obo_id : Option String := none
deriving DecidableEq, Repr

/-- One Cognitive Atlas concept (`CognitiveAtlasResult`). -/
structure CognitiveAtlasResult where
  id : String
  name : String
  definition_text : Option String := none
deriving DecidableEq, Repr

/-- One formatted lookup result (`FormattedResult`); `schemaKey` is one of
`Anatomy`, `Disorder`, `GenericType`. -/
structure FormattedResult where
  identifier : String
  name : String
  schemaKey : String
  ontology : String
  description : Option String := none
  oboId : Option String := none
deriving DecidableEq, Repr

/-- `OLS_ONTOLOGY_CONFIG`: OLS id and DANDI schemaKey per ontology. -/
def olsConfig : String → Option (String × String)
  | "UBERON" => some ("uberon", "Anatomy")
  | "DOID" => some ("doid", "Disorder")
  | "NCIT" => some ("ncit", "Disorder")
  | "HP" => some ("hp", "Disorder")
  | "GO" => some ("go", "GenericType")
  | "CL" => some ("cl", "Anatomy")
  | _ => none

/-- The OLS ontologies searched for each category (`auto`, the default,
searches UBERON, DOID, HP and CL). -/
def olsOntologiesFor : String → List String
  | "anatomy" => ["UBERON", "CL"]
  | "disorder" => ["DOID", "HP", "NCIT"]
  | "cognitive" => []
  | _ => ["UBERON", "DOID", "HP", "CL"]

/-- Whether the Cognitive Atlas is searched for a category. -/
def searchesCognitiveAtlas : String → Bool
  | "anatomy" => false
  | "disorder" => false
  | _ => true

/-- ASCII `toLowerCase`. -/
def lowerStr (s : String) : String := String.mk (s.data.map asciiLower)

/-- The relevance comparator of the tool's `sort`, as a `≤` test
(comparator result ≤ 0): exact matches first, then label-initial matches,
then shorter labels. -/
def resultLE (termLower : String) (a b : FormattedResult) : Bool :=
  let aExact := lowerStr a.name == termLower
  let bExact := lowerStr b.name == termLower
  if aExact && !bExact then true
  else if !aExact && bExact then false
  else
    let aStarts := leadsWith termLower.data (lowerStr a.name).data
    let bStarts := leadsWith termLower.data (lowerStr b.name).data
    if aStarts && !bStarts then true
    else if !aStarts && bStarts then false
    else decide (a.name.length ≤ b.name.length)

/-- Parameters of a `lookup_ontology_term` call; `category` and
`maxResults` may be omitted, and `maxResults` is a JS number, modelled as
an integer (the claims quantify over values below 1 and above 10). -/
structure LookupParams where
  term : String
  category : Option String := none
  maxResults : Option Int := none
deriving Repr

/-- `Math.min(Math.max(1, maxResults), 10)` with the default of 5. -/
def clampedMaxResults (maxResults : Option Int) : Int :=
  min (max 1 (maxResults.getD 5)) 10

/-- What the tool hands back: the success flag and the (possibly empty)
formatted results list. -/
structure LookupOutcome where
  success : Bool
  results : List FormattedResult
deriving Repr

/-- Formatting of one OLS hit. -/
def formatOLS (ontology schemaKey : String) (r : OLSSearchResult) :
    FormattedResult :=
  { identifier := r.iri, name := r.label, schemaKey := schemaKey,
    ontology := ontology, description := r.descriptions.head?,
    oboId := r.obo_id }

/-- The client-side filter and slice of `searchCognitiveAtlas_API`: keep
concepts whose name or definition contains the lowercased term, then take
at most `maxResults`. -/
def filterCognitiveAtlas (term : String) (data : List CognitiveAtlasResult)
    (maxResults : Nat) : List CognitiveAtlasResult :=
  (data.filter (fun item =>
    containsSeg (lowerStr term).data (lowerStr item.name).data ||
      (match item.definition_text with
       | some d => containsSeg (lowerStr term).data (lowerStr d).data
       | none => false))).take maxResults

/-- Formatting of one Cognitive Atlas concept. -/
def formatCog (r : CognitiveAtlasResult) : FormattedResult :=
  { identifier := "https://www.cognitiveatlas.org/concept/id/" ++ r.id,
    name := r.name, schemaKey := "GenericType", ontology := "CognitiveAtlas",
    description := r.definition_text }

/-- `lookupOntologyTermTool.execute`, with the external OLS and Cognitive
Atlas responses supplied as oracles (`none` models a request that threw or
returned non-OK and was caught, contributing no results): empty term fails;
otherwise the per-ontology hits are collected, the Cognitive Atlas is
filtered client-side, everything is sorted by relevance and sliced to the
clamped maximum. -/
def executeLookup (params : LookupParams)
    (olsSearch : String → Nat → Option (List OLSSearchResult))
    (cogApi : Option (List CognitiveAtlasResult)) : LookupOutcome :=
  let term := params.term
  let category := (params.category).getD "auto"
  if jsTrim term = "" then { success := false, results := [] }
  else
    let clamped := (clampedMaxResults params.maxResults).toNat
    let olsResults :=
      ((olsOntologiesFor category).map (fun ontology =>
        match olsConfig ontology with
        | none => []
        | some (olsId, schemaKey) =>
          match olsSearch olsId clamped with
          | some rs => rs.map (formatOLS ontology schemaKey)
          | none => [])).flatten
    let cogResults :=
      if searchesCognitiveAtlas category then
        match cogApi with
        | some data => (filterCognitiveAtlas term data clamped).map formatCog
        | none => []
      else []
    let allResults := olsResults ++ cogResults
    if allResults.isEmpty then { success := true, results := [] }
    else
      { success := true,
        results := (allResults.mergeSort (resultLE (lowerStr term))).take clamped }

/-- **C9** — The requested `maxResults` is clamped to the interval [1, 10]
(default 5), and the returned results list never exceeds the clamped
bound — in particular never exceeds 10 — for every `maxResults` argument,
including values below 1, above 10 or omitted, and for every external
response. -/
theorem lookup_maxResults_clamped (params : LookupParams)
    (olsSearch : String → Nat → Option (List OLSSearchResult))
    (cogApi : Option (List CognitiveAtlasResult)) :
    1 ≤ clampedMaxResults params.maxResults ∧
    clampedMaxResults params.maxResults ≤ 10 ∧
    (executeLookup params olsSearch cogApi).results.length ≤
      (clampedMaxResults params.maxResults).toNat ∧
    (executeLookup params olsSearch cogApi).results.length ≤ 10 := by
  have h1 : 1 ≤ clampedMaxResults params.maxResults :=
    le_min (le_max_left 1 _) (by norm_num)
  have h10 : clampedMaxResults params.maxResults ≤ 10 := min_le_right _ _
  have hlen : (executeLookup params olsSearch cogApi).results.length ≤
      (clampedMaxResults params.maxResults).toNat := by
    simp only [executeLookup]
    repeat' split
    all_goals simp [List.length_take]
  refine ⟨h1, h10, hlen, le_trans hlen ?_⟩
  have : (clampedMaxResults params.maxResults).toNat ≤ (10 : Int).toNat :=
    Int.toNat_le_toNat h10
  simpa using this

end DandisetAssistant
